import Mathlib

/-!
Shallow embedding of the pnft-cli-rpc shielded-NFT registry.

The repository's visible source is the HTTP glue `src/src/main.rs`; the core
library `penumbra_nft` (modules `mint`, `transfer`, `view`, `staking`,
`airdrop`, `ibc`, `types`, `state`) is not part of the sources, so every core
operation below is modelled from the specification, as marked on each
definition.  The glue handlers themselves (request shapes, the hard-coded
`shielded: true` and `Some(5)` maturity in `mint_handler`, the credential-less
`view_handler`) are embedded from the visible Rust code.

Records are pure data; the registry is an association list from identifier to
record, and every operation is an explicit state-passing function.  Errors are
values of `ErrorKind` carried in `Except`.
-/

/-- Error kinds of the core, from spec section 7. -/
inductive ErrorKind where
  | NotFound
  | DuplicateIdentifier
  | AssetLocked
  | AlreadyStaked
  | NotStaked
  | MaturityNotReached
  | MalformedPacket
  | InvalidRecipient
deriving Repr, DecidableEq

/-- Shielded metadata envelope, mirroring `penumbra_nft::types::NFTMetadata` as
constructed field-by-field in `mint_handler` of `src/src/main.rs`
(`name`, `description`, `image_cid`, `attributes`, `shielded`). -/
structure NFTMetadata where
  name : String
  description : String
  image_cid : String
  attributes : String
  shielded : Bool
deriving Repr, DecidableEq

/-- Lock state of an asset, from spec section 3:
`{Unlocked, Staked(since, optional maturity)}`. -/
inductive LockState where
  | Unlocked : LockState
  | Staked : Nat → Option Nat → LockState
deriving Repr, DecidableEq

/-- Modelled from the spec: the asset record of `penumbra_nft::types::NFT`
(not under src/).  Fields `id`, `owner`, `metadata`, `lock_state` are from
spec section 3; `lock_maturity` is the advisory future-unlock marker that
`mint(owner, metadata, lock_maturity)` records for use on first stake
(spec section 4.3 — the marker is not an automatic stake). -/
structure NFT where
  id : String
  owner : String
  metadata : NFTMetadata
  lock_state : LockState
  lock_maturity : Option Nat
deriving Repr, DecidableEq

/-- Modelled from the spec: the registry `penumbra_nft::state::NFTState`
(not under src/), "a mapping from AssetIdentifier to NFT" (spec section 3),
embedded as an association list whose key is the identifier.  The public
field name `nfts` follows the visible access `state.nfts` in
`ibc_import_handler`. -/
structure NFTState where
  nfts : List (String × NFT)
deriving Repr, DecidableEq

/-- Modelled from the spec: `NFTState::new()` (called in `main`), the empty
registry. -/
def NFTState.new : NFTState := ⟨[]⟩

/-- Lookup of the first entry with the given key in an association list. -/
def lookupNFT : List (String × NFT) → String → Option NFT
  | [], _ => none
  | (k, v) :: r, id => if k = id then some v else lookupNFT r id

/-- Modelled from the spec: `get(id)` of the registry (spec section 4.2), a
read-only lookup; `state.get_nft(&id)` is called in `ibc_export_handler`. -/
def NFTState.get_nft (st : NFTState) (id : String) : Option NFT :=
  lookupNFT st.nfts id

/-- Modelled from the spec: `insert(id, record)` of the registry
(spec section 4.2): "fails with `DuplicateIdentifier` if `id` already
present; otherwise stores and succeeds". -/
def NFTState.insert (st : NFTState) (id : String) (nft : NFT) :
    Except ErrorKind NFTState :=
  if (st.get_nft id).isSome then .error .DuplicateIdentifier
  else .ok ⟨(id, nft) :: st.nfts⟩

/-- Update (in place) the first entry with the given key. -/
def updateNFT : List (String × NFT) → String → (NFT → NFT) → List (String × NFT)
  | [], _, _ => []
  | (k, v) :: r, id, f =>
    if k = id then (k, f v) :: r else (k, v) :: updateNFT r id f

/-- Modelled from the spec: syntactic validity of an asset identifier.  The
spec (section 3) fixes identifiers as opaque non-degenerate string tokens and
gives no further concrete syntax, so validity is non-emptiness. -/
def validIdentifier (s : String) : Bool := s.length != 0

/-- Length of the longest key in the registry list. -/
def maxKeyLen : List (String × NFT) → Nat
  | [] => 0
  | (k, _) :: r => max k.length (maxKeyLen r)

/-- Modelled from the spec: fresh identifier generation at mint time
(spec section 4.1, "generates a fresh, collision-resistant identifier per
mint"; the Rust glue uses UUIDs).  The model produces a token strictly longer
than every key already present, which is therefore fresh. -/
def genId (st : NFTState) : String :=
  String.mk (List.replicate (maxKeyLen st.nfts + 1) 'u')

/-- Modelled from the spec: `penumbra_nft::mint::mint_nft` (not under src/),
spec section 4.3: generates an identifier, constructs the NFT with
`lock_state = Unlocked` regardless of `lock_maturity` (the maturity is only
recorded as a default for a later first stake), stores it, and returns the
identifier.  It always succeeds once identifier generation succeeds. -/
def mint_nft (st : NFTState) (owner : String) (metadata : NFTMetadata)
    (lock_maturity : Option Nat) : String × NFTState :=
  let id := genId st
  let nft : NFT :=
    { id := id, owner := owner, metadata := metadata,
      lock_state := .Unlocked, lock_maturity := lock_maturity }
  (id, ⟨(id, nft) :: st.nfts⟩)

/-- Modelled from the spec: `penumbra_nft::transfer::transfer_nft` (not under
src/), spec section 4.4: `NotFound` if absent, `AssetLocked` if staked,
otherwise atomically replaces `owner` and changes no other field. -/
def transfer_nft (st : NFTState) (id : String) (new_owner : String) :
    Except ErrorKind NFTState :=
  match st.get_nft id with
  | none => .error .NotFound
  | some nft =>
    match nft.lock_state with
    | .Staked _ _ => .error .AssetLocked
    | .Unlocked =>
      .ok ⟨updateNFT st.nfts id (fun n => { n with owner := new_owner })⟩

/-- Modelled from the spec: validity of a viewing credential.  The concrete
credential mechanism is unspecified (spec section 9); the spec only fixes the
contract that a valid credential is one matching the record's owner
(spec section 4.5), so a credential is its owner string. -/
def validCredential (cred : String) (nft : NFT) : Bool :=
  cred = nft.owner

/-- Modelled from the spec: the redacted projection returned for a shielded
record without a credential (spec section 4.5): identifier, owner and the
shielding flag survive; description and attributes (and the other private
metadata fields) are replaced by the empty placeholder. -/
def redactNFT (nft : NFT) : NFT :=
  { id := nft.id, owner := nft.owner,
    metadata :=
      { name := "", description := "", image_cid := "", attributes := "",
        shielded := nft.metadata.shielded },
    lock_state := nft.lock_state, lock_maturity := nft.lock_maturity }

/-- Modelled from the spec: `penumbra_nft::view::reveal_nft` (not under src/),
spec section 4.5.  A pure read: unshielded records are returned in full;
shielded records are returned in full exactly under a valid credential and
redacted otherwise; `none` only when the record does not exist. -/
def reveal_nft (st : NFTState) (id : String) (cred : Option String) :
    Option NFT :=
  match st.get_nft id with
  | none => none
  | some nft =>
    if nft.metadata.shielded then
      match cred with
      | some c => if validCredential c nft then some nft else some (redactNFT nft)
      | none => some (redactNFT nft)
    else some nft

/-- Modelled from the spec: the named lock-maturity default consulted by the
staking engine when the mint-time marker is absent (spec sections 4.6 and 9,
the "implicit 5 lock-maturity default"). -/
def defaultMaturity : Nat := 5

/-- Modelled from the spec: `penumbra_nft::staking::stake_nft` (not under
src/), spec section 4.6: `NotFound` if absent, `AlreadyStaked` if staked,
otherwise `Unlocked -> Staked(now, maturity_from_mint_or_default)`.  The core
has no clock of its own, so `now` is the fixed epoch 0 here. -/
def stake_nft (st : NFTState) (id : String) : Except ErrorKind NFTState :=
  match st.get_nft id with
  | none => .error .NotFound
  | some nft =>
    match nft.lock_state with
    | .Staked _ _ => .error .AlreadyStaked
    | .Unlocked =>
      .ok ⟨updateNFT st.nfts id (fun n =>
        { n with lock_state := .Staked 0 (some (n.lock_maturity.getD defaultMaturity)) })⟩

/-- Modelled from the spec: `penumbra_nft::staking::unstake_nft` (not under
src/), spec section 4.6: `NotFound` if absent, `NotStaked` if unlocked,
otherwise back to `Unlocked`.  The optional `MaturityNotReached` policy is
left unenforced, the spec's stated default. -/
def unstake_nft (st : NFTState) (id : String) : Except ErrorKind NFTState :=
  match st.get_nft id with
  | none => .error .NotFound
  | some nft =>
    match nft.lock_state with
    | .Unlocked => .error .NotStaked
    | .Staked _ _ =>
      .ok ⟨updateNFT st.nfts id (fun n => { n with lock_state := .Unlocked })⟩

/-- Modelled from the spec: validity of an airdrop recipient address.  The
spec names "malformed address" as the per-recipient failure (section 4.7) and
its only address-validity requirement is the non-empty-owner invariant
(section 3), so a recipient is valid when non-empty. -/
def validRecipient (r : String) : Bool := r.length != 0

/-- Modelled from the spec: the per-recipient fan-out loop of airdrop
(spec section 4.7): each valid recipient gets a fresh mint cloned from the
source metadata; a malformed recipient yields a reported `InvalidRecipient`
outcome without aborting or rolling back the other mints. -/
def airdropGo (st : NFTState) (src : NFT) :
    List String → NFTState × List (Except ErrorKind String)
  | [] => (st, [])
  | r :: rest =>
    if validRecipient r then
      let m := mint_nft st r src.metadata src.lock_maturity
      let p := airdropGo m.2 src rest
      (p.1, .ok m.1 :: p.2)
    else
      let p := airdropGo st src rest
      (p.1, .error .InvalidRecipient :: p.2)

/-- Modelled from the spec: `penumbra_nft::airdrop::airdrop_nft` (not under
src/), spec section 4.7: fails wholesale with `NotFound` before any recipient
is processed when the source is absent; otherwise fans out one clone-mint per
recipient and enumerates per-recipient outcomes. -/
def airdrop_nft (st : NFTState) (id : String) (recipients : List String) :
    Except ErrorKind (NFTState × List (Except ErrorKind String)) :=
  match st.get_nft id with
  | none => .error .NotFound
  | some src => .ok (airdropGo st src recipients)

/-- Length-marked encoding of one string field of an IBC packet: a run of
marker characters of the field's length, a separator, then the field bytes. -/
def encStr (s : String) : List Char :=
  List.replicate s.length 'L' ++ ':' :: s.toList

/-- Splits a leading run of the character `c` off a character list, returning
the run length and the remainder. -/
def splitRun (c : Char) : List Char → Nat × List Char
  | [] => (0, [])
  | a :: r =>
    if a = c then
      let p := splitRun c r
      (p.1 + 1, p.2)
    else (0, a :: r)

/-- Decoder for `encStr`: reads the length run, the separator, then exactly
that many field bytes, returning the field and the remaining input. -/
def decStr (l : List Char) : Option (String × List Char) :=
  let p := splitRun 'L' l
  match p.2 with
  | ':' :: rest =>
    if p.1 ≤ rest.length then some (String.mk (rest.take p.1), rest.drop p.1)
    else none
  | _ => none

/-- Unary encoding of a natural packet field. -/
def encNat (n : Nat) : List Char :=
  List.replicate n 'x' ++ [';']

/-- Decoder for `encNat`. -/
def decNat (l : List Char) : Option (Nat × List Char) :=
  let p := splitRun 'x' l
  match p.2 with
  | ';' :: rest => some (p.1, rest)
  | _ => none

/-- One-character encoding of a boolean packet field. -/
def encBool (b : Bool) : List Char :=
  if b then ['1'] else ['0']

/-- Decoder for `encBool`. -/
def decBool (l : List Char) : Option (Bool × List Char) :=
  match l with
  | '1' :: rest => some (true, rest)
  | '0' :: rest => some (false, rest)
  | _ => none

/-- Tagged encoding of an optional natural packet field. -/
def encOptNat : Option Nat → List Char
  | none => ['N']
  | some m => 'M' :: encNat m

/-- Decoder for `encOptNat`. -/
def decOptNat (l : List Char) : Option (Option Nat × List Char) :=
  match l with
  | 'N' :: rest => some (none, rest)
  | 'M' :: rest => (decNat rest).map (fun p => (some p.1, p.2))
  | _ => none

/-- Tagged encoding of the lock state of a packet. -/
def encLock : LockState → List Char
  | .Unlocked => ['U']
  | .Staked since mat => 'S' :: (encNat since ++ encOptNat mat)

/-- Decoder for `encLock`. -/
def decLock (l : List Char) : Option (LockState × List Char) :=
  match l with
  | 'U' :: rest => some (.Unlocked, rest)
  | 'S' :: rest =>
    (decNat rest).bind (fun p =>
      (decOptNat p.2).map (fun q => (LockState.Staked p.1 q.1, q.2)))
  | _ => none

/-- Version marker of the IBC packet format (spec section 4.8: the encoding is
versioned and self-describing). -/
def packetVersion : List Char := ['v', '1', '|']

/-- The character-level packet body: version marker, the record's string
fields, the shielding flag, the lock state and the maturity marker. -/
def encodeNFT (nft : NFT) : List Char :=
  packetVersion ++ encStr nft.id ++ encStr nft.owner ++ encStr nft.metadata.name
    ++ encStr nft.metadata.description ++ encStr nft.metadata.image_cid
    ++ encStr nft.metadata.attributes ++ encBool nft.metadata.shielded
    ++ encLock nft.lock_state ++ encOptNat nft.lock_maturity

/-- Modelled from the spec: `penumbra_nft::ibc::export_nft_for_ibc` (not under
src/), spec section 4.8: a deterministic, versioned encoding of the full
record, including shielded contents (export is owner-authorized and not
subject to disclosure redaction). -/
def export_nft_for_ibc (nft : NFT) : String :=
  String.mk (encodeNFT nft)

/-- Character-level packet decoder: version marker, then each field in order,
with no trailing bytes allowed. -/
def decodeNFT (l : List Char) : Option NFT :=
  match l with
  | 'v' :: '1' :: '|' :: r0 =>
    (decStr r0).bind (fun pid =>
    (decStr pid.2).bind (fun pow =>
    (decStr pow.2).bind (fun pnm =>
    (decStr pnm.2).bind (fun pds =>
    (decStr pds.2).bind (fun pim =>
    (decStr pim.2).bind (fun pat =>
    (decBool pat.2).bind (fun psh =>
    (decLock psh.2).bind (fun plk =>
    (decOptNat plk.2).bind (fun pmt =>
      if pmt.2 = [] then
        some
          { id := pid.1, owner := pow.1,
            metadata :=
              { name := pnm.1, description := pds.1, image_cid := pim.1,
                attributes := pat.1, shielded := psh.1 },
            lock_state := plk.1, lock_maturity := pmt.1 }
      else none)))))))))
  | _ => none

/-- Modelled from the spec: `penumbra_nft::ibc::import_nft_from_ibc` as spec
section 4.8 describes it: `MalformedPacket` on decode error or unsupported
version, validation that the embedded identifier is well-formed, and on
success a constructed record which the caller may insert — import itself
touches no registry state.  (The visible call site in `ibc_import_handler`
binds the result directly as an `NFT`, so the shipped function cannot return
an error value; this definition follows the spec's words.) -/
def import_nft_from_ibc (bytes : String) : Except ErrorKind NFT :=
  match decodeNFT bytes.toList with
  | some nft =>
    if validIdentifier nft.id then .ok nft else .error .MalformedPacket
  | none => .error .MalformedPacket

/-- The mint request body of `src/src/main.rs` (`MintRequest`): owner and the
four metadata strings; no shielding flag and no maturity field exist in the
request. -/
structure MintRequest where
  owner : String
  name : String
  description : String
  image_cid : String
  attributes : String
deriving Repr, DecidableEq

/-- The visible `mint_handler` of `src/src/main.rs`: builds `NFTMetadata` with
`shielded: true` hard-coded, calls `mint_nft(&mut state, req.owner, metadata,
Some(5))` and returns the fresh identifier. -/
def mint_handler (st : NFTState) (req : MintRequest) : NFTState × String :=
  let metadata : NFTMetadata :=
    { name := req.name, description := req.description,
      image_cid := req.image_cid, attributes := req.attributes,
      shielded := true }
  let m := mint_nft st req.owner metadata (some 5)
  (m.2, m.1)

/-- The visible `view_handler` of `src/src/main.rs`: a read-only lookup that
always passes `None` as the credential. -/
def view_handler (st : NFTState) (id : String) : Option NFT :=
  reveal_nft st id none

/-- Registry invariant of spec sections 3 and 8: keys are unique and each one
is the identifier of its record, every reachable record has a syntactically
valid identifier and a non-empty owner. -/
def RegInv (st : NFTState) : Prop :=
  (st.nfts.map Prod.fst).Nodup ∧
  ∀ p ∈ st.nfts, p.1 = p.2.id ∧ validIdentifier p.2.id = true ∧ p.2.owner ≠ ""

/-- A sequence of mints (owner, metadata, maturity marker), applied in order. -/
def mintSeq : NFTState → List (String × NFTMetadata × Option Nat) → NFTState
  | st, [] => st
  | st, (owner, md, lm) :: rest => mintSeq (mint_nft st owner md lm).2 rest

/-- The per-recipient contract of one airdrop outcome (spec section 4.7): a
valid recipient receives a fresh unlocked record cloned from the source
metadata, present in the final state; a malformed recipient is reported as
`InvalidRecipient`. -/
def AirdropOutcome (stF : NFTState) (src : NFT) (r : String)
    (out : Except ErrorKind String) : Prop :=
  (validRecipient r = true →
    ∃ nid nft, out = Except.ok nid ∧ lookupNFT stF.nfts nid = some nft ∧
      nft.owner = r ∧ nft.metadata = src.metadata ∧
      nft.lock_state = LockState.Unlocked) ∧
  (validRecipient r = false → out = Except.error ErrorKind.InvalidRecipient)

/-- A concrete shielded metadata value, used in closed instances. -/
def sampleMeta : NFTMetadata :=
  { name := "Art#1", description := "a shielded artwork", image_cid := "cid-1",
    attributes := "rarity:rare", shielded := true }

/-- A concrete unlocked shielded record, used in closed instances. -/
def sampleNFT : NFT :=
  { id := "X", owner := "alice", metadata := sampleMeta,
    lock_state := LockState.Unlocked, lock_maturity := some 5 }

/-- A one-record registry holding `sampleNFT`, used in closed instances. -/
def sampleState : NFTState := ⟨[("X", sampleNFT)]⟩

/-! ### Basic registry lemmas -/

theorem lookupNFT_mem {l : List (String × NFT)} {k : String} {v : NFT}
    (h : lookupNFT l k = some v) : (k, v) ∈ l := by
  induction l with
  | nil => simp [lookupNFT] at h
  | cons p r ih =>
    obtain ⟨kh, vh⟩ := p
    by_cases hk : kh = k
    · subst hk
      simp [lookupNFT] at h
      subst h
      exact List.mem_cons_self _ _
    · simp [lookupNFT, hk] at h
      exact List.mem_cons_of_mem _ (ih h)

theorem lookupNFT_update_self {l : List (String × NFT)} {id : String}
    {f : NFT → NFT} :
    lookupNFT (updateNFT l id f) id = (lookupNFT l id).map f := by
  induction l with
  | nil => simp [lookupNFT, updateNFT]
  | cons p r ih =>
    obtain ⟨kh, vh⟩ := p
    by_cases hk : kh = id
    · subst hk
      simp [lookupNFT, updateNFT]
    · simp [lookupNFT, updateNFT, hk, ih]

theorem lookupNFT_update_other {l : List (String × NFT)} {id k : String}
    {f : NFT → NFT} (h : k ≠ id) :
    lookupNFT (updateNFT l id f) k = lookupNFT l k := by
  induction l with
  | nil => simp [updateNFT]
  | cons p r ih =>
    obtain ⟨kh, vh⟩ := p
    by_cases hk : kh = id
    · have hne : ¬ (id = k) := Ne.symm h
      simp [lookupNFT, updateNFT, hk, hne]
    · by_cases hk2 : kh = k
      · subst hk2
        simp [lookupNFT, updateNFT, hk]
      · simp [lookupNFT, updateNFT, hk, hk2, ih]

theorem map_fst_updateNFT {l : List (String × NFT)} {id : String}
    {f : NFT → NFT} :
    (updateNFT l id f).map Prod.fst = l.map Prod.fst := by
  induction l with
  | nil => simp [updateNFT]
  | cons p r ih =>
    obtain ⟨kh, vh⟩ := p
    by_cases hk : kh = id
    · subst hk
      simp [updateNFT]
    · simp [updateNFT, hk, ih]

theorem mem_updateNFT {l : List (String × NFT)} {id : String} {f : NFT → NFT}
    {p : String × NFT} (h : p ∈ updateNFT l id f) :
    p ∈ l ∨ ∃ q, q ∈ l ∧ p = (q.1, f q.2) := by
  induction l with
  | nil => simp [updateNFT] at h
  | cons q r ih =>
    obtain ⟨kh, vh⟩ := q
    by_cases hk : kh = id
    · subst hk
      simp [updateNFT] at h
      rcases h with h | h
      · exact Or.inr ⟨(kh, vh), List.mem_cons_self _ _, by simp [h]⟩
      · exact Or.inl (List.mem_cons_of_mem _ h)
    · simp [updateNFT, hk] at h
      rcases h with h | h
      · exact Or.inl (by simp [h])
      · rcases ih h with h2 | ⟨q2, hq2, hq3⟩
        · exact Or.inl (List.mem_cons_of_mem _ h2)
        · exact Or.inr ⟨q2, List.mem_cons_of_mem _ hq2, hq3⟩

/-! ### Fresh identifier generation -/

theorem key_length_le_maxKeyLen {l : List (String × NFT)} {k : String}
    {v : NFT} (h : (k, v) ∈ l) : k.length ≤ maxKeyLen l := by
  induction l with
  | nil => simp at h
  | cons p r ih =>
    obtain ⟨kh, vh⟩ := p
    rcases List.mem_cons.mp h with h | h
    · obtain ⟨h1, _⟩ := Prod.mk.injEq .. ▸ h
      simp only [maxKeyLen]
      have : k = kh := congrArg Prod.fst h
      exact this ▸ Nat.le_max_left _ _
    · exact Nat.le_trans (ih h) (by simp [maxKeyLen])

theorem genId_length (st : NFTState) :
    (genId st).length = maxKeyLen st.nfts + 1 := by
  simp [genId, String.length]

theorem genId_fresh (st : NFTState) : lookupNFT st.nfts (genId st) = none := by
  cases h : lookupNFT st.nfts (genId st) with
  | none => rfl
  | some v =>
    have hmem := lookupNFT_mem h
    have hle := key_length_le_maxKeyLen hmem
    rw [genId_length st] at hle
    omega

theorem genId_valid (st : NFTState) : validIdentifier (genId st) = true := by
  have := genId_length st
  simp [validIdentifier]
  omega

/-! ### Mint lemmas -/

theorem lookup_mint_self (st : NFTState) (o : String) (md : NFTMetadata)
    (lm : Option Nat) :
    lookupNFT (mint_nft st o md lm).2.nfts (mint_nft st o md lm).1 =
      some { id := genId st, owner := o, metadata := md,
             lock_state := LockState.Unlocked, lock_maturity := lm } := by
  simp [mint_nft, lookupNFT]

theorem lookup_mint_preserve {st : NFTState} {k : String} {v : NFT}
    (o : String) (md : NFTMetadata) (lm : Option Nat)
    (h : lookupNFT st.nfts k = some v) :
    lookupNFT (mint_nft st o md lm).2.nfts k = some v := by
  have hfresh := genId_fresh st
  have hne : genId st ≠ k := by
    intro hc
    rw [hc, h] at hfresh
    exact Option.noConfusion hfresh
  simp [mint_nft, lookupNFT, hne, h]

theorem genId_not_key {st : NFTState} (h : genId st ∈ st.nfts.map Prod.fst) :
    False := by
  obtain ⟨p, hp, hfst⟩ := List.mem_map.mp h
  obtain ⟨k, v⟩ := p
  have hk : k = genId st := hfst
  subst hk
  have hle := key_length_le_maxKeyLen hp
  rw [genId_length st] at hle
  omega

/-! ### Invariant preservation -/

theorem RegInv_new : RegInv NFTState.new := by
  constructor
  · simp [NFTState.new]
  · intro p hp
    simp [NFTState.new] at hp

theorem RegInv_mint {st : NFTState} (o : String) (md : NFTMetadata)
    (lm : Option Nat) (hinv : RegInv st) (ho : o ≠ "") :
    RegInv (mint_nft st o md lm).2 := by
  obtain ⟨hnd, hall⟩ := hinv
  constructor
  · simp only [mint_nft, List.map_cons]
    exact List.nodup_cons.mpr ⟨fun h => genId_not_key h, hnd⟩
  · intro p hp
    simp only [mint_nft] at hp
    rcases List.mem_cons.mp hp with h | h
    · subst h
      exact ⟨rfl, genId_valid st, ho⟩
    · exact hall p h

theorem RegInv_update {st : NFTState} {id : String} {f : NFT → NFT}
    (hinv : RegInv st) (hid : ∀ n, (f n).id = n.id)
    (hown : ∀ n, n.owner ≠ "" → (f n).owner ≠ "") :
    RegInv ⟨updateNFT st.nfts id f⟩ := by
  obtain ⟨hnd, hall⟩ := hinv
  constructor
  · simpa [map_fst_updateNFT] using hnd
  · intro p hp
    rcases mem_updateNFT hp with h | ⟨q, hq, hpq⟩
    · exact hall p h
    · obtain ⟨h1, h2, h3⟩ := hall q hq
      subst hpq
      refine ⟨by simp [hid, h1], ?_, hown q.2 h3⟩
      rw [hid q.2]
      exact h2

theorem RegInv_transfer {st st' : NFTState} {id no : String}
    (hinv : RegInv st) (hno : no ≠ "")
    (h : transfer_nft st id no = .ok st') : RegInv st' := by
  cases hg : st.get_nft id with
  | none => simp [transfer_nft, hg] at h
  | some nft =>
    cases hl : nft.lock_state with
    | Staked s m => simp [transfer_nft, hg, hl] at h
    | Unlocked =>
      simp [transfer_nft, hg, hl] at h
      subst h
      exact RegInv_update hinv (fun n => rfl) (fun n _ => hno)

theorem RegInv_stake {st st' : NFTState} {id : String}
    (hinv : RegInv st) (h : stake_nft st id = .ok st') : RegInv st' := by
  cases hg : st.get_nft id with
  | none => simp [stake_nft, hg] at h
  | some nft =>
    cases hl : nft.lock_state with
    | Staked s m => simp [stake_nft, hg, hl] at h
    | Unlocked =>
      simp [stake_nft, hg, hl] at h
      subst h
      exact RegInv_update hinv (fun n => rfl) (fun n hn => hn)

theorem RegInv_unstake {st st' : NFTState} {id : String}
    (hinv : RegInv st) (h : unstake_nft st id = .ok st') : RegInv st' := by
  cases hg : st.get_nft id with
  | none => simp [unstake_nft, hg] at h
  | some nft =>
    cases hl : nft.lock_state with
    | Unlocked => simp [unstake_nft, hg, hl] at h
    | Staked s m =>
      simp [unstake_nft, hg, hl] at h
      subst h
      exact RegInv_update hinv (fun n => rfl) (fun n hn => hn)

theorem RegInv_airdropGo {src : NFT} (rs : List String) :
    ∀ st : NFTState, RegInv st → RegInv (airdropGo st src rs).1 := by
  induction rs with
  | nil => intro st hinv; simpa [airdropGo] using hinv
  | cons r rest ih =>
    intro st hinv
    by_cases hv : validRecipient r = true
    · have hr : r ≠ "" := by
        intro hc
        subst hc
        simp [validRecipient] at hv
      simp only [airdropGo, hv, if_true]
      exact ih _ (RegInv_mint r src.metadata src.lock_maturity hinv hr)
    · simp only [airdropGo, hv, if_false]
      exact ih _ hinv

theorem RegInv_airdrop {st : NFTState} {id : String} {rs : List String}
    {p : NFTState × List (Except ErrorKind String)}
    (hinv : RegInv st) (h : airdrop_nft st id rs = .ok p) : RegInv p.1 := by
  unfold airdrop_nft at h
  cases hg : st.get_nft id with
  | none => rw [hg] at h; exact Except.noConfusion h
  | some src =>
    rw [hg] at h
    obtain rfl := (Except.ok.injEq .. ▸ h : airdropGo st src rs = p)
    exact RegInv_airdropGo rs st hinv

theorem RegInv_mintSeq (reqs : List (String × NFTMetadata × Option Nat)) :
    ∀ st : NFTState, RegInv st →
      (reqs.all fun q => q.1.length != 0) = true → RegInv (mintSeq st reqs) := by
  induction reqs with
  | nil => intro st hinv _; simpa [mintSeq] using hinv
  | cons q rest ih =>
    intro st hinv hall
    obtain ⟨o, md, lm⟩ := q
    simp only [List.all_cons, Bool.and_eq_true] at hall
    have ho : o ≠ "" := by
      intro hc
      subst hc
      simp at hall
    simp only [mintSeq]
    exact ih _ (RegInv_mint o md lm hinv ho) hall.2

/-! ### Packet encoding round-trip lemmas -/

theorem splitRun_replicate {c a : Char} (n : Nat) (t : List Char)
    (h : a ≠ c) :
    splitRun c (List.replicate n c ++ a :: t) = (n, a :: t) := by
  induction n with
  | zero => simp [splitRun, Ne.symm h, h]
  | succ k ih => simp [splitRun, List.replicate_succ, ih]

theorem take_append_self {α : Type} (l t : List α) :
    (l ++ t).take l.length = l := by
  induction l with
  | nil => simp
  | cons a r ih => simp [ih]

theorem drop_append_self {α : Type} (l t : List α) :
    (l ++ t).drop l.length = t := by
  induction l with
  | nil => simp
  | cons a r ih => simp [ih]

theorem decStr_encStr (s : String) (t : List Char) :
    decStr (encStr s ++ t) = some (s, t) := by
  have hne : (':' : Char) ≠ 'L' := by decide
  have hsplit :
      splitRun 'L' (List.replicate s.length 'L' ++ ':' :: (s.toList ++ t)) =
        (s.length, ':' :: (s.toList ++ t)) := splitRun_replicate _ _ hne
  have hlen : s.toList.length = s.length := rfl
  simp only [encStr, decStr, List.append_assoc, List.cons_append, hsplit]
  rw [← hlen, take_append_self, drop_append_self]
  simp

theorem decNat_encNat (n : Nat) (t : List Char) :
    decNat (encNat n ++ t) = some (n, t) := by
  have hne : (';' : Char) ≠ 'x' := by decide
  have hsplit := splitRun_replicate (c := 'x') n t hne
  simp only [encNat, decNat, List.append_assoc, List.cons_append,
    List.nil_append, hsplit]

theorem decBool_encBool (b : Bool) (t : List Char) :
    decBool (encBool b ++ t) = some (b, t) := by
  cases b <;> rfl

theorem decOptNat_encOptNat (o : Option Nat) (t : List Char) :
    decOptNat (encOptNat o ++ t) = some (o, t) := by
  cases o with
  | none => rfl
  | some m => simp [encOptNat, decOptNat, decNat_encNat]

theorem decLock_encLock (ls : LockState) (t : List Char) :
    decLock (encLock ls ++ t) = some (ls, t) := by
  cases ls with
  | Unlocked => rfl
  | Staked s m =>
    simp [encLock, decLock, List.append_assoc, decNat_encNat,
      decOptNat_encOptNat]

theorem decOptNat_encOptNat_nil (o : Option Nat) :
    decOptNat (encOptNat o) = some (o, []) := by
  have := decOptNat_encOptNat o []
  simpa using this

theorem decodeNFT_encodeNFT (nft : NFT) : decodeNFT (encodeNFT nft) = some nft := by
  simp only [encodeNFT, packetVersion, List.append_assoc, List.cons_append,
    List.nil_append]
  simp only [decodeNFT, decStr_encStr, Option.bind_eq_bind, Option.some_bind,
    decBool_encBool, decLock_encLock, decOptNat_encOptNat_nil]
  simp

theorem import_export_roundtrip {nft : NFT}
    (h : validIdentifier nft.id = true) :
    import_nft_from_ibc (export_nft_for_ibc nft) = .ok nft := by
  have htl : (export_nft_for_ibc nft).toList = encodeNFT nft := rfl
  have hdt : (export_nft_for_ibc nft).data = encodeNFT nft := rfl
  simp [import_nft_from_ibc, htl, hdt, decodeNFT_encodeNFT, h]

/-! ### Airdrop fan-out lemmas -/

theorem lookup_airdropGo_preserve {src : NFT} (rs : List String) :
    ∀ (st : NFTState) (k : String) (v : NFT),
      lookupNFT st.nfts k = some v →
      lookupNFT (airdropGo st src rs).1.nfts k = some v := by
  induction rs with
  | nil => intro st k v h; simpa [airdropGo] using h
  | cons r rest ih =>
    intro st k v h
    by_cases hv : validRecipient r = true
    · simp only [airdropGo, hv, if_true]
      exact ih _ k v (lookup_mint_preserve r src.metadata src.lock_maturity h)
    · simp only [airdropGo, hv, if_false]
      exact ih _ k v h

theorem airdropGo_outcomes (src : NFT) (rs : List String) :
    ∀ st : NFTState,
      List.Forall₂ (AirdropOutcome (airdropGo st src rs).1 src) rs
        (airdropGo st src rs).2 := by
  induction rs with
  | nil => intro st; simp [airdropGo]
  | cons r rest ih =>
    intro st
    by_cases hv : validRecipient r = true
    · simp only [airdropGo, hv, if_true]
      refine List.Forall₂.cons ?_ (ih _)
      constructor
      · intro _
        refine ⟨(mint_nft st r src.metadata src.lock_maturity).1,
          { id := genId st, owner := r, metadata := src.metadata,
            lock_state := LockState.Unlocked,
            lock_maturity := src.lock_maturity }, rfl, ?_, rfl, rfl, rfl⟩
        exact lookup_airdropGo_preserve rest _ _ _
          (lookup_mint_self st r src.metadata src.lock_maturity)
      · intro hc
        rw [hv] at hc
        exact Bool.noConfusion hc
    · simp only [airdropGo, hv, if_false]
      refine List.Forall₂.cons ?_ (ih _)
      constructor
      · intro hc
        exact absurd hc hv
      · intro _
        rfl

/-! ### Record eta helper -/

theorem set_unlocked_eq {nft : NFT} (h : nft.lock_state = LockState.Unlocked) :
    ({ nft with lock_state := LockState.Unlocked } : NFT) = nft := by
  cases nft with
  | mk i o m l lm =>
    simp only at h
    rw [h]

/-! ### Claim theorems -/

/-- C6: the spec requires `import(bytes)` to fail with `MalformedPacket`,
returned as an error value, on every byte string that is not a well-formed
packet of a supported version, and on success to construct a record without
touching the registry (the caller inserts).  The spec-modelled import does
exactly that — evaluated here at two malformed inputs, junk bytes and a
packet of an unsupported shape — and by its type `String → Except ErrorKind
NFT` it cannot modify any registry.  The visible `ibc_import_handler` in
`src/src/main.rs`, however, binds `import_nft_from_ibc(&req.serialized)`
directly as an `NFT` and unconditionally inserts it, so the shipped function
cannot report `MalformedPacket` as an error value at all. -/
theorem claim_C6_import_malformed_eval :
    import_nft_from_ibc "zzz" = .error .MalformedPacket ∧
    import_nft_from_ibc "v1|garbage" = .error .MalformedPacket ∧
    import_nft_from_ibc "" = .error .MalformedPacket :=
  ⟨rfl, rfl, rfl⟩

/-- C7: for every owner, metadata and lock-maturity argument (`some` or
`none`), mint succeeds and creates a record whose `lock_state` is `Unlocked`;
the maturity argument is only recorded on the record, and it is applied as
the staking maturity on the first stake. -/
theorem claim_C7_mint_unlocked (st : NFTState) (o : String) (md : NFTMetadata)
    (lm : Option Nat) :
    lookupNFT (mint_nft st o md lm).2.nfts (mint_nft st o md lm).1 =
      some { id := (mint_nft st o md lm).1, owner := o, metadata := md,
             lock_state := LockState.Unlocked, lock_maturity := lm } ∧
    ∃ st2, stake_nft (mint_nft st o md lm).2 (mint_nft st o md lm).1 =
        .ok st2 ∧
      lookupNFT st2.nfts (mint_nft st o md lm).1 =
        some { id := (mint_nft st o md lm).1, owner := o, metadata := md,
               lock_state := LockState.Staked 0 (some (lm.getD defaultMaturity)),
               lock_maturity := lm } := by
  have hself := lookup_mint_self st o md lm
  refine ⟨hself, ?_⟩
  have hget : (mint_nft st o md lm).2.get_nft (mint_nft st o md lm).1 =
      some { id := genId st, owner := o, metadata := md,
             lock_state := LockState.Unlocked, lock_maturity := lm } := hself
  cases hstake : stake_nft (mint_nft st o md lm).2 (mint_nft st o md lm).1 with
  | error e => simp [stake_nft, hget] at hstake
  | ok st2 =>
    refine ⟨st2, rfl, ?_⟩
    simp [stake_nft, hget] at hstake
    subst hstake
    rw [lookupNFT_update_self, hself]
    rfl

/-- C10: the public mint operation of the service hard-codes
`shielded = true` and the maturity default `Some(5)`: for every registry
state and every request, the record created by `mint_handler` carries the
request's owner and metadata strings, `shielded = true`, `lock_state =
Unlocked` and `lock_maturity = some 5`; the request type itself (mirroring
`MintRequest` in `src/src/main.rs`) has no field that could override either. -/
theorem claim_C10_mint_always_shielded (st : NFTState) (req : MintRequest) :
    lookupNFT (mint_handler st req).1.nfts (mint_handler st req).2 =
      some { id := genId st, owner := req.owner,
             metadata :=
               { name := req.name, description := req.description,
                 image_cid := req.image_cid, attributes := req.attributes,
                 shielded := true },
             lock_state := LockState.Unlocked, lock_maturity := some 5 } := by
  simp [mint_handler, mint_nft, lookupNFT]

/-- C9: starting from the empty registry, any sequence of mints (with the
boundary-validated non-empty owners) yields a registry in which no two
records share an identifier and every record has a syntactically valid
identifier and a non-empty owner; this invariant is preserved by mint,
transfer, stake, unstake and airdrop.  Reveal and export take the registry
immutably and return no state, so they cannot disturb it. -/
theorem claim_C9_registry_invariant :
    (∀ reqs : List (String × NFTMetadata × Option Nat),
      (reqs.all fun q => q.1.length != 0) = true →
      RegInv (mintSeq NFTState.new reqs)) ∧
    (∀ (st : NFTState) (o : String) (md : NFTMetadata) (lm : Option Nat),
      RegInv st → o ≠ "" → RegInv (mint_nft st o md lm).2) ∧
    (∀ (st st' : NFTState) (id no : String), RegInv st → no ≠ "" →
      transfer_nft st id no = .ok st' → RegInv st') ∧
    (∀ (st st' : NFTState) (id : String), RegInv st →
      stake_nft st id = .ok st' → RegInv st') ∧
    (∀ (st st' : NFTState) (id : String), RegInv st →
      unstake_nft st id = .ok st' → RegInv st') ∧
    (∀ (st : NFTState) (id : String) (rs : List String)
      (p : NFTState × List (Except ErrorKind String)), RegInv st →
      airdrop_nft st id rs = .ok p → RegInv p.1) :=
  ⟨fun reqs h => RegInv_mintSeq reqs NFTState.new RegInv_new h,
   fun _ o md lm hinv ho => RegInv_mint o md lm hinv ho,
   fun _ _ _ _ hinv hno h => RegInv_transfer hinv hno h,
   fun _ _ _ hinv h => RegInv_stake hinv h,
   fun _ _ _ hinv h => RegInv_unstake hinv h,
   fun _ _ _ _ hinv h => RegInv_airdrop hinv h⟩

/-- Witness for C9: the invariant, via the theorem, at a concrete two-mint
sequence from the empty registry. -/
theorem claim_C9_witness :
    RegInv (mintSeq NFTState.new
      [("alice", sampleMeta, some 5), ("bob", sampleMeta, none)]) :=
  claim_C9_registry_invariant.1
    [("alice", sampleMeta, some 5), ("bob", sampleMeta, none)] (by decide)

theorem reveal_nft_eq_none_iff (st : NFTState) (id : String)
    (c : Option String) :
    reveal_nft st id c = none ↔ st.get_nft id = none := by
  cases hg : st.get_nft id with
  | none => simp [reveal_nft, hg]
  | some v =>
    simp only [reveal_nft, hg]
    constructor
    · intro hcon
      by_cases hs : v.metadata.shielded = true
      · cases c with
        | none => simp [hs] at hcon
        | some cc =>
          by_cases hvc : validCredential cc v = true <;> simp [hs, hvc] at hcon
      · simp [hs] at hcon
    · intro hcon
      exact Option.noConfusion hcon

/-- C1: for a shielded record, `reveal(id, None)` returns only the redacted
projection — identifier, owner and shielding flag, with description and
attributes replaced by the placeholder, and the projection does not depend on
the hidden description/attributes at all — while `reveal(id, valid
credential)` returns the record with description and attributes exactly as
minted; `reveal` is `none` iff no record exists under the identifier, and it
is a pure read (its type takes the registry immutably and returns no state,
matching the `&state` borrow in `view_handler`). -/
theorem claim_C1_disclosure_gating (st : NFTState) (id : String) (nft : NFT)
    (hget : st.get_nft id = some nft)
    (hsh : nft.metadata.shielded = true) :
    reveal_nft st id none = some (redactNFT nft) ∧
    (redactNFT nft).id = nft.id ∧
    (redactNFT nft).owner = nft.owner ∧
    (redactNFT nft).metadata.shielded = true ∧
    (redactNFT nft).metadata.description = "" ∧
    (redactNFT nft).metadata.attributes = "" ∧
    (∀ d a : String,
      redactNFT { nft with metadata :=
        { nft.metadata with description := d, attributes := a } } =
        redactNFT nft) ∧
    (∀ c : String, validCredential c nft = true →
      reveal_nft st id (some c) = some nft) ∧
    (∀ (st2 : NFTState) (id2 : String) (c2 : Option String),
      reveal_nft st2 id2 c2 = none ↔ st2.get_nft id2 = none) ∧
    (∀ (st0 : NFTState) (o : String) (md : NFTMetadata) (lm : Option Nat),
      md.shielded = true →
      reveal_nft (mint_nft st0 o md lm).2 (mint_nft st0 o md lm).1 (some o) =
        some { id := genId st0, owner := o, metadata := md,
               lock_state := LockState.Unlocked, lock_maturity := lm }) := by
  refine ⟨by simp [reveal_nft, hget, hsh], rfl, rfl, by simp [redactNFT, hsh],
    rfl, rfl, fun d a => rfl, ?_, reveal_nft_eq_none_iff, ?_⟩
  · intro c hc
    simp [reveal_nft, hget, hsh, hc]
  · intro st0 o md lm hmd
    have hget0 : (mint_nft st0 o md lm).2.get_nft (mint_nft st0 o md lm).1 =
        some { id := genId st0, owner := o, metadata := md,
               lock_state := LockState.Unlocked, lock_maturity := lm } :=
      lookup_mint_self st0 o md lm
    simp [reveal_nft, hget0, hmd, validCredential]

/-- Witness for C1: the disclosure-gating conclusion at the one-record
sample registry, whose record is shielded. -/
theorem claim_C1_witness :
    sampleState.get_nft "X" = some sampleNFT ∧
    reveal_nft sampleState "X" none = some (redactNFT sampleNFT) ∧
    reveal_nft sampleState "X" (some "alice") = some sampleNFT :=
  ⟨by decide,
   (claim_C1_disclosure_gating sampleState "X" sampleNFT (by decide) rfl).1,
   (claim_C1_disclosure_gating sampleState "X" sampleNFT (by decide)
      rfl).2.2.2.2.2.2.2.1 "alice" (by decide)⟩

/-- C2: for a record present in the registry, `transfer` fails with
`AssetLocked` exactly when its `lock_state` is `Staked`; when it is
`Unlocked`, transfer succeeds, the record afterwards differs from before in
the owner field alone, and every other identifier maps to the same record as
before. -/
theorem claim_C2_lock_transfer_exclusion (st : NFTState) (id no : String)
    (nft : NFT) (hget : st.get_nft id = some nft) :
    (transfer_nft st id no = .error .AssetLocked ↔
      ∃ s m, nft.lock_state = LockState.Staked s m) ∧
    (nft.lock_state = LockState.Unlocked →
      ∃ st', transfer_nft st id no = .ok st' ∧
        st'.get_nft id = some { nft with owner := no } ∧
        ∀ k, k ≠ id → st'.get_nft k = st.get_nft k) := by
  constructor
  · cases hl : nft.lock_state with
    | Unlocked =>
      constructor
      · intro hcon
        simp [transfer_nft, hget, hl] at hcon
      · intro ⟨s, m, hcon⟩
        exact LockState.noConfusion hcon
    | Staked s m =>
      constructor
      · intro _
        exact ⟨s, m, rfl⟩
      · intro _
        simp [transfer_nft, hget, hl]
  · intro hl
    refine ⟨⟨updateNFT st.nfts id (fun n => { n with owner := no })⟩, ?_, ?_, ?_⟩
    · simp [transfer_nft, hget, hl]
    · simp only [NFTState.get_nft] at hget ⊢
      rw [lookupNFT_update_self, hget]
      rfl
    · intro k hk
      simp only [NFTState.get_nft]
      exact lookupNFT_update_other hk

/-- Witness for C2: transfer of the unlocked sample record succeeds and
replaces only the owner. -/
theorem claim_C2_witness :
    sampleState.get_nft "X" = some sampleNFT ∧
    ∃ st', transfer_nft sampleState "X" "bob" = .ok st' ∧
      st'.get_nft "X" = some { sampleNFT with owner := "bob" } ∧
      ∀ k, k ≠ "X" → st'.get_nft k = sampleState.get_nft k :=
  ⟨by decide,
   (claim_C2_lock_transfer_exclusion sampleState "X" "bob" sampleNFT
      (by decide)).2 rfl⟩

/-- C3: inserting under an identifier already present in the registry fails
with `DuplicateIdentifier` (the error carries no new state, so the existing
record is untouched), and in particular for a record R still present under
its own identifier, `import(export(R))` reconstructs R itself, so inserting
the imported record under its original identifier fails with
`DuplicateIdentifier` instead of overwriting. -/
theorem claim_C3_duplicate_insert (st : NFTState) (nft : NFT)
    (hget : st.get_nft nft.id = some nft)
    (hid : validIdentifier nft.id = true) :
    (∀ (id2 : String) (v : NFT), (st.get_nft id2).isSome = true →
      st.insert id2 v = .error .DuplicateIdentifier) ∧
    import_nft_from_ibc (export_nft_for_ibc nft) = .ok nft ∧
    (∀ r : NFT, import_nft_from_ibc (export_nft_for_ibc nft) = .ok r →
      st.insert r.id r = .error .DuplicateIdentifier) := by
  refine ⟨fun id2 v h => by simp [NFTState.insert, h],
    import_export_roundtrip hid, ?_⟩
  intro r hr
  rw [import_export_roundtrip hid] at hr
  injection hr with hr
  subst hr
  simp [NFTState.insert, hget]

/-- Witness for C3: re-inserting the sample record, and the record imported
from its own export, both fail with `DuplicateIdentifier`. -/
theorem claim_C3_witness :
    import_nft_from_ibc (export_nft_for_ibc sampleNFT) = .ok sampleNFT ∧
    sampleState.insert "X" sampleNFT = .error .DuplicateIdentifier :=
  ⟨(claim_C3_duplicate_insert sampleState sampleNFT (by decide)
      (by decide)).2.1,
   (claim_C3_duplicate_insert sampleState sampleNFT (by decide)
      (by decide)).1 "X" sampleNFT (by decide)⟩

/-- C4: for every record with a well-formed identifier, importing its export
reconstructs the record exactly — in particular owner and the full metadata,
shielded description and attributes included, are unchanged — and export is
deterministic: equal records export to equal packet bytes. -/
theorem claim_C4_export_import_roundtrip (nft : NFT)
    (hid : validIdentifier nft.id = true) :
    import_nft_from_ibc (export_nft_for_ibc nft) = .ok nft ∧
    ∀ r1 r2 : NFT, r1 = r2 → export_nft_for_ibc r1 = export_nft_for_ibc r2 :=
  ⟨import_export_roundtrip hid, fun _ _ h => congrArg export_nft_for_ibc h⟩

/-- Witness for C4: the round-trip at the concrete sample record. -/
theorem claim_C4_witness :
    import_nft_from_ibc (export_nft_for_ibc sampleNFT) = .ok sampleNFT ∧
    ∀ r1 r2 : NFT, r1 = r2 → export_nft_for_ibc r1 = export_nft_for_ibc r2 :=
  claim_C4_export_import_roundtrip sampleNFT (by decide)

/-- C8: on an unlocked record, stake succeeds and records
`Staked(now, maturity from mint or default)`; a second stake without an
intervening unstake fails with `AlreadyStaked` and leaves the record staked;
unstake then restores the record exactly — every field, id, owner and
metadata included, as before the stake — and touches no other identifier;
stake and unstake on an absent identifier fail with `NotFound`, and unstake
on an unlocked record fails with `NotStaked`. -/
theorem claim_C8_stake_unstake_toggle (st : NFTState) (id : String) (nft : NFT)
    (hget : st.get_nft id = some nft)
    (hul : nft.lock_state = LockState.Unlocked) :
    (∃ st1, stake_nft st id = .ok st1 ∧
      st1.get_nft id = some { nft with lock_state := LockState.Staked 0 (some (nft.lock_maturity.getD defaultMaturity)) } ∧
      stake_nft st1 id = .error .AlreadyStaked ∧
      ∃ st2, unstake_nft st1 id = .ok st2 ∧
        st2.get_nft id = some nft ∧
        ∀ k, k ≠ id → st2.get_nft k = st.get_nft k) ∧
    unstake_nft st id = .error .NotStaked ∧
    (∀ (stx : NFTState) (idx : String), stx.get_nft idx = none →
      stake_nft stx idx = .error .NotFound ∧
      unstake_nft stx idx = .error .NotFound) := by
  refine ⟨?_, by simp [unstake_nft, hget, hul], ?_⟩
  · cases hstake : stake_nft st id with
    | error e => simp [stake_nft, hget, hul] at hstake
    | ok st1 =>
      have hdef := hstake
      simp [stake_nft, hget, hul] at hdef
      subst hdef
      have hst1 : NFTState.get_nft
          ⟨updateNFT st.nfts id (fun n => { n with lock_state := LockState.Staked 0 (some (n.lock_maturity.getD defaultMaturity)) })⟩
          id = some { nft with lock_state := LockState.Staked 0 (some (nft.lock_maturity.getD defaultMaturity)) } := by
        simp only [NFTState.get_nft] at hget ⊢
        rw [lookupNFT_update_self, hget]
        rfl
      refine ⟨_, rfl, hst1, by simp [stake_nft, hst1], ?_⟩
      cases hun : unstake_nft
          ⟨updateNFT st.nfts id (fun n => { n with lock_state := LockState.Staked 0 (some (n.lock_maturity.getD defaultMaturity)) })⟩
          id with
      | error e => simp [unstake_nft, hst1] at hun
      | ok st2 =>
        have hdef2 := hun
        simp [unstake_nft, hst1] at hdef2
        subst hdef2
        refine ⟨_, rfl, ?_, ?_⟩
        · simp only [NFTState.get_nft] at hget ⊢
          rw [lookupNFT_update_self, lookupNFT_update_self, hget]
          show some ({ nft with lock_state := LockState.Unlocked }) = some nft
          rw [set_unlocked_eq hul]
        · intro k hk
          simp only [NFTState.get_nft]
          rw [lookupNFT_update_other hk, lookupNFT_update_other hk]
  · intro stx idx h
    exact ⟨by simp [stake_nft, h], by simp [unstake_nft, h]⟩

/-- Witness for C8: the stake/unstake toggle at the unlocked sample record. -/
theorem claim_C8_witness :
    sampleState.get_nft "X" = some sampleNFT ∧
    unstake_nft sampleState "X" = .error .NotStaked :=
  ⟨by decide,
   (claim_C8_stake_unstake_toggle sampleState "X" sampleNFT
      (by decide) rfl).2.1⟩

/-- C5: airdrop fails wholesale with `NotFound`, before any recipient is
processed, exactly when the source identifier is absent; otherwise it
returns one outcome per recipient in order — a fresh unlocked record cloned
from the source metadata and owned by the recipient for each valid one, a
reported `InvalidRecipient` for each malformed one, with no rollback of the
others — and the source record is unchanged afterwards. -/
theorem claim_C5_airdrop_fanout (st : NFTState) (id : String)
    (rs : List String) :
    (airdrop_nft st id rs = .error .NotFound ↔ st.get_nft id = none) ∧
    (∀ src, st.get_nft id = some src →
      airdrop_nft st id rs = .ok (airdropGo st src rs) ∧
      (airdropGo st src rs).1.get_nft id = some src ∧
      List.Forall₂ (AirdropOutcome (airdropGo st src rs).1 src) rs
        (airdropGo st src rs).2) := by
  constructor
  · cases hg : st.get_nft id with
    | none => simp [airdrop_nft, hg]
    | some src => simp [airdrop_nft, hg]
  · intro src hsrc
    refine ⟨by simp [airdrop_nft, hsrc], ?_, airdropGo_outcomes src rs st⟩
    exact lookup_airdropGo_preserve rs st id src hsrc

/-- Witness for C5: the three-recipient scenario with a malformed middle
recipient on the sample registry. -/
theorem claim_C5_witness :
    airdrop_nft sampleState "X" ["r1", "", "r3"] =
      .ok (airdropGo sampleState sampleNFT ["r1", "", "r3"]) ∧
    (airdropGo sampleState sampleNFT ["r1", "", "r3"]).1.get_nft "X" =
      some sampleNFT ∧
    List.Forall₂
      (AirdropOutcome (airdropGo sampleState sampleNFT ["r1", "", "r3"]).1
        sampleNFT)
      ["r1", "", "r3"] (airdropGo sampleState sampleNFT ["r1", "", "r3"]).2 :=
  (claim_C5_airdrop_fanout sampleState "X" ["r1", "", "r3"]).2 sampleNFT
    (by decide)
